import Mathlib

/-!
Shallow embedding of `zkevm-circuits/src/witness/block.rs` (witness assembly
and circuit-degree sizing) together with proofs about the claims of the
natural-language specification.

Conventions of the embedding:
* machine integers (`usize`, `u64`, 256-bit `Word`) are `Nat`; the padding
  counters (`i32`) are `Int`;
* field elements are represented by their canonical `Nat` representative;
* fallible Rust code returns `Option`/`Except`; a Rust `panic!`/`assert!`
  is a distinct `AssemblyFailure` panic outcome (`Panic`,
  `PanicInconsistent`), separate from the `Result::Err` channel;
* code of the repository that is not part of `witness/block.rs` (the rw
  sub-module, the evm-circuit, `bus_mapping`, `eth_types`, the instance
  module) is modelled from the spec; each such definition carries a doc
  comment starting with `Modelled from the spec:`.
-/

/-- Modelled from the spec: one observed access of the read/write log
(`Rw` in `witness/rw.rs`, not in src): a monotonically increasing
read/write counter, a read-or-write discriminant, a composite target key
(address/kind/key collapsed into one `Nat`), and the accessed value. -/
structure Rw where
  rw_counter : Nat
  is_write : Bool
  target : Nat
  value : Nat
deriving DecidableEq, Repr

/-- Modelled from the spec: the chronological read/write log
(`RwMap` in `witness/rw.rs`, not in src): events keyed by their
read/write counter, kept in chronological order. -/
structure RwMap where
  rows : List Rw
deriving DecidableEq, Repr

/-- Modelled from the spec: `RwMap::from(&block.container)` — build the
chronological mapping from the trace's access-record container. -/
def RwMap.from_container (container : List Rw) : RwMap := ⟨container⟩

/-- Comparison by the composite sort key (target address, then counter)
of the address-sorted view of the log. -/
def rw_key_le (a b : Rw) : Bool :=
  a.target < b.target || (a.target == b.target && a.rw_counter ≤ b.rw_counter)

/-- Insertion step of the address-ordered sort. -/
def rw_insert (a : Rw) : List Rw → List Rw
  | [] => [a]
  | b :: rest => if rw_key_le a b then a :: b :: rest else b :: rw_insert a rest

/-- Insertion sort by (target, counter). -/
def rw_sort : List Rw → List Rw
  | [] => []
  | a :: rest => rw_insert a (rw_sort rest)

/-- Modelled from the spec: `RwMap::table_assignments` (in
`witness/rw.rs`, not in src) — the same events sorted by the composite
key (target address, then counter).  The `padding` flag is only ever
`false` at the call site in `block_convert`; the padding branch is not
modelled. -/
def RwMap.table_assignments (m : RwMap) (_padding : Bool) : List Rw :=
  rw_sort m.rows

/-- Modelled from the spec: the assembly error taxonomy surfaced through
the `Result` channel (`bus_mapping::Error`, not in src). -/
inductive AssemblyError
  | InconsistentValueError
  | FieldOverflowError
  | CapacityExceededError
  | HashInputError (code : Nat)
deriving DecidableEq, Repr

/-- A fatal outcome of block assembly: either an error returned through
the `Result` channel, or a Rust panic.  Two panic sites are modelled:
the capacity `assert!` in `block_convert` (`Panic`, carrying the
configured `max_rws` and the offending chunk's
`rwc.0.saturating_sub(1)`, the two arguments of its format string), and
an abort raised inside the consistency check (`PanicInconsistent`, see
`RwMap.check_value`). -/
inductive AssemblyFailure
  | Err (e : AssemblyError)
  | Panic (max_rws : Nat) (chunk_rws : Nat)
  | PanicInconsistent
deriving DecidableEq, Repr

instance {ε α : Type} [DecidableEq ε] [DecidableEq α] : DecidableEq (Except ε α) :=
  fun a b =>
    match a, b with
    | .ok x, .ok y =>
      if h : x = y then isTrue (by rw [h]) else isFalse (by intro hc; cases hc; exact h rfl)
    | .error x, .error y =>
      if h : x = y then isTrue (by rw [h]) else isFalse (by intro hc; cases hc; exact h rfl)
    | .ok _, .error _ => isFalse (by intro hc; cases hc)
    | .error _, .ok _ => isFalse (by intro hc; cases hc)

/-- Modelled from the spec: the consistency walk of `RwMap::check_value`
(in `witness/rw.rs`, not in src).  It scans the chronological log while
tracking, per target, the value of the most recent access; a read whose
value differs from the tracked value of its target violates the
read-after-write invariant (two sequential reads of the same target with
different values violate it).  The spec calls the check mandatory and a
violation fatal, but the call site in `block_convert` is the bare
statement `rws.check_value();` — any returned value is discarded — so
the abort can only be a panic raised inside the check, rendered here as
`PanicInconsistent`, never a `Result` error.
`track` updates the per-target most-recent-value table with one event. -/
def track (last : Nat → Option Nat) (r : Rw) : Nat → Option Nat :=
  fun t => if t = r.target then some r.value else last t

/-- The consistency walk itself; see `track`. -/
def check_value_go : (Nat → Option Nat) → List Rw → Except AssemblyFailure Unit
  | _, [] => .ok ()
  | last, r :: rest =>
    if r.is_write then
      check_value_go (track last r) rest
    else
      match last r.target with
      | some v =>
          if r.value = v then check_value_go (track last r) rest
          else .error .PanicInconsistent
      | none => check_value_go (track last r) rest

/-- Modelled from the spec: `RwMap::check_value` — mandatory consistency
check over the chronological log; a violated read-after-write invariant
aborts it.  The abort is a panic (`PanicInconsistent`), not a `Result`
error, because `block_convert` discards the call's value (see
`check_value_go`). -/
def RwMap.check_value (m : RwMap) : Except AssemblyFailure Unit :=
  check_value_go (fun _ => none) m.rows

/-- Modelled from the spec: signature witness data (`eth_types::SignData`,
not in src).  `dummy chain_id` is the sign data of the dummy padding
transaction at the given chain id; `data` is an ordinary entry. -/
inductive SignData
  | data (sig : Nat) (pk : Nat) (msg : Nat)
  | dummy (chain_id : Nat)
deriving DecidableEq, Repr

/-- Modelled from the spec: `Transaction::dummy().sign_data(chain_id).unwrap()`
— the padding transaction's signature entry (its computation always
succeeds). -/
def Transaction.dummy_sign_data (chain_id : Nat) : SignData := .dummy chain_id

/-- A transaction of the witness block.  `call_data` is its call-data
byte list.  `sign_data` — modelled from the spec: the recorded outcome of
the external ECDSA computation `tx.sign_data(chain_id)` at the block's
chain id (`none` when that computation fails). -/
structure Transaction where
  call_data : List Nat
  sign_data : Option SignData
deriving DecidableEq, Repr

/-- A copy event; only its byte list is consumed here. -/
structure CopyEvent where
  bytes : List Nat
deriving DecidableEq, Repr

/-- An exponentiation event; only its step list is consumed here. -/
structure ExpEvent where
  steps : List Nat
deriving DecidableEq, Repr

/-- Modelled from the spec: the recorded I/O of precompile calls
(`PrecompileEvents`, not in src); only the ecRecover events are consumed
here. -/
structure PrecompileEvents where
  ecrecover : List SignData
deriving DecidableEq, Repr

/-- Modelled from the spec: `PrecompileEvents::get_ecrecover_events`. -/
def PrecompileEvents.get_ecrecover_events (p : PrecompileEvents) : List SignData :=
  p.ecrecover

/-- Modelled from the spec: a parsed withdrawal (`bus_mapping` `Withdrawal`,
not in src). -/
structure Withdrawal where
  index : Nat
  validator_index : Nat
  address : Nat
  amount : Nat
deriving DecidableEq, Repr

/-- A withdrawal entry of the original geth block.  `parsed` — modelled
from the spec: the recorded outcome of the fallible external constructor
`Withdrawal::new` on this entry's fields (`none` when the entry is
unparseable). -/
structure EthWithdrawal where
  index : Nat
  validator_index : Nat
  address : Nat
  amount : Nat
  parsed : Option Withdrawal
deriving DecidableEq, Repr

/-- The original geth block, reduced to the fields consumed here. -/
structure EthBlock where
  withdrawals : Option (List EthWithdrawal)
  withdrawals_root : Option Nat
deriving DecidableEq, Repr

/-- An execution step, carried through assembly unchanged. -/
structure ExecStep where
  exec_state : Nat
deriving DecidableEq, Repr

/-- The bytecode database, carried through assembly unchanged. -/
structure CodeDB where
  codes : List (List Nat)
deriving DecidableEq, Repr

/-- Fixed circuit setup parameters (`FixedCParams`). -/
structure FixedCParams where
  max_rws : Nat
  max_txs : Nat
  max_withdrawals : Nat
  max_calldata : Nat
deriving DecidableEq, Repr

/-- Feature configuration, carried through assembly unchanged. -/
structure FeatureConfig where
  flags : Nat
deriving DecidableEq, Repr

/-- Block context for execution (`BlockContext`). -/
structure BlockContext where
  coinbase : Nat
  gas_limit : Nat
  number : Nat
  timestamp : Nat
  difficulty : Nat
  base_fee : Nat
  history_hashes : List Nat
  chain_id : Nat
  withdrawals_root : Nat
deriving DecidableEq, Repr

/-- The assembled witness snapshot (`Block<F>`).  `rw_padding_meta` models
the source's `BTreeMap<usize, i32>` by its total lookup function; a key
absent from the map reads as `0`, which is faithful because every stored
entry is created by `or_insert(0)` immediately followed by `+= 1` and is
therefore never `0`. -/
structure Block where
  randomness : Nat
  txs : List Transaction
  end_block : ExecStep
  rws : RwMap
  by_address_rws : List Rw
  bytecodes : CodeDB
  context : BlockContext
  copy_events : List CopyEvent
  exp_events : List ExpEvent
  exp_circuit_pad_to : Nat
  circuits_params : FixedCParams
  feature_config : FeatureConfig
  sha3_inputs : List (List Nat)
  prev_state_root : Nat
  keccak_inputs : List (List Nat)
  precompile_events : PrecompileEvents
  eth_block : EthBlock
  rw_padding_meta : Nat → Int

/-- Get signature (witness) data from the block for tx signatures and
ecRecover calls (`Block::get_sign_data`): per-transaction sign data
(successful entries only), then the ecRecover precompile events, then —
when padding is requested and the block is not full — one dummy entry. -/
def Block.get_sign_data (b : Block) (padding : Bool) : List SignData :=
  let signatures : List SignData := b.txs.filterMap (fun tx => tx.sign_data)
  let signatures := signatures ++ b.precompile_events.get_ecrecover_events
  if padding ∧ b.txs.length < b.circuits_params.max_txs then
    signatures ++ [Transaction.dummy_sign_data b.context.chain_id]
  else
    signatures

/-- The iterator `map`/`unwrap()`/`collect` walk of `Block::withdrawals`: an
unparseable entry makes the whole call panic (`none`); otherwise the
parsed entries are collected in order. -/
def collect_withdrawals : List EthWithdrawal → Option (List Withdrawal)
  | [] => some []
  | w :: rest =>
    match w.parsed with
    | none => none
    | some v =>
      match collect_withdrawals rest with
      | none => none
      | some vs => some (v :: vs)

/-- Return the list of withdrawals of this block (`Block::withdrawals`):
`unwrap_or_default` on the optional geth list, then parse each entry with
`Withdrawal::new(..).unwrap()`. -/
def Block.withdrawals (b : Block) : Option (List Withdrawal) :=
  collect_withdrawals (b.eth_block.withdrawals.getD [])

/-- Modelled from the spec: the per-step row multiplier of the
exponentiation table (`exp_circuit::param::OFFSET_INCREMENT`, not in
src). -/
def OFFSET_INCREMENT : Nat := 7

/-- Modelled from the spec: `crate::util::log2_ceil` (not in src) — the
base-2 ceiling logarithm. -/
def log2_ceil (n : Nat) : Nat := Nat.clog 2 n

/-- Modelled from the spec: quantities of `get_test_degree` delegated to
external components: the execution-step row requirement
(`EvmCircuit::get_num_rows_required(self, chunk)`, subsuming the `chunk`
argument), the per-tag row counts of the detected fixed tables
(`tag.build().count()` for each tag of `detect_fixed_table_tags(self)`),
the bytecode-table row requirement
(`CodeDB::num_rows_required_for_bytecode_table`), and the constraint
system's `EvmCircuit::unusable_rows()`. -/
structure ExternalRows where
  num_rows_required_for_execution_steps : Nat
  fixed_table_tag_counts : List Nat
  num_rows_required_for_bytecode_table : Nat
  unusable_rows : Nat
deriving DecidableEq, Repr

/-- Row requirement of the copy table: two rows per copied byte. -/
def num_rows_required_for_copy_table (copy_events : List CopyEvent) : Nat :=
  (copy_events.map (fun c => c.bytes.length * 2)).sum

/-- Row requirement of the transaction table: 9 fixed rows per
transaction plus one row per call-data byte. -/
def num_rows_required_for_tx_table (txs : List Transaction) : Nat :=
  (txs.map (fun tx => 9 + tx.call_data.length)).sum

/-- Row requirement of the exponentiation table: `OFFSET_INCREMENT` rows
per step. -/
def num_rows_required_for_exp_table (exp_events : List ExpEvent) : Nat :=
  (exp_events.map (fun e => e.steps.length * OFFSET_INCREMENT)).sum

/-- Row requirement of the keccak table: one per hash input. -/
def num_rows_required_for_keccak_table (keccak_inputs : List (List Nat)) : Nat :=
  keccak_inputs.length

/-- Row requirement of the fixed lookup tables: the sum over all detected
fixed-table tag row counts. -/
def num_rows_required_for_fixed_table (ext : ExternalRows) : Nat :=
  ext.fixed_table_tag_counts.sum

/-- Semantics of `itertools::max` over a list of numbers: `none` on the empty list,
otherwise the maximum. -/
def itertools_max : List Nat → Option Nat
  | [] => none
  | a :: rest =>
    match itertools_max rest with
    | none => some a
    | some m => some (Nat.max a m)

/-- The nine row requirements maximised by `get_test_degree`, in source
order, ending with the fixed `1 << 16` u16 range-lookup minimum. -/
def sub_table_rows (b : Block) (ext : ExternalRows) : List Nat :=
  [ext.num_rows_required_for_execution_steps,
   b.circuits_params.max_rws,
   num_rows_required_for_fixed_table ext,
   ext.num_rows_required_for_bytecode_table,
   num_rows_required_for_copy_table b.copy_events,
   num_rows_required_for_keccak_table b.keccak_inputs,
   num_rows_required_for_tx_table b.txs,
   num_rows_required_for_exp_table b.exp_events,
   1 <<< 16]

/-- Obtain the expected circuit degree for this block
(`Block::get_test_degree`): the base-2 ceiling logarithm of the unusable
rows plus the maximum sub-table row requirement.  The `unwrap()` of the
source cannot fail (the maximised list is a non-empty literal); it is
rendered as `getD 0`. -/
def Block.get_test_degree (b : Block) (ext : ExternalRows) : Nat :=
  let rows_needed : Nat := (itertools_max (sub_table_rows b ext)).getD 0
  log2_ceil (ext.unusable_rows + rows_needed)

/-- Modelled from the spec: the modulus of the target prime field (the
scalar field the witness is arithmetised over; any sufficiently large
prime works for the spec — this is the BN254 scalar modulus the circuits
instantiate `F` with).  Field elements are their canonical `Nat`
representatives. -/
def FIELD_MODULUS : Nat :=
  21888242871839275222246405745257275088548364400416034343698204186575808495617

/-- Modelled from the spec: `ToScalar::to_scalar` (in `eth_types`, not in
src) — fallible narrowing of a 256-bit word into the field; `none` when
the value does not fit. -/
def to_scalar (w : Nat) : Option Nat :=
  if w < FIELD_MODULUS then some w else none

/-- Modelled from the spec: the low 128-bit half of `WordLoHi::from(w)`. -/
def word_lo (w : Nat) : Nat := w % 2 ^ 128

/-- Modelled from the spec: the high 128-bit half of `WordLoHi::from(w)`
(word values are 256-bit wide). -/
def word_hi (w : Nat) : Nat := w / 2 ^ 128 % 2 ^ 128

/-- Modelled from the spec: 256-bit word subtraction
(`eth_types::Word` is a checked machine integer whose subtraction aborts
below zero); `none` models the abort. -/
def word_sub (a b : Nat) : Option Nat :=
  if b ≤ a then some (a - b) else none

/-- Modelled from the spec: the row tags of the block-context table
(`BlockContextFieldTag` in `table.rs`, not in src). -/
inductive BlockContextFieldTag
  | Coinbase
  | Timestamp
  | Number
  | Difficulty
  | GasLimit
  | BaseFee
  | BlockHash
  | ChainId
  | WithdrawalRoot
deriving DecidableEq, Repr

/-- Modelled from the spec: the numeric discriminant of each tag
(representative values; the claims do not depend on them). -/
def BlockContextFieldTag.toNat : BlockContextFieldTag → Nat
  | .Coinbase => 1
  | .Timestamp => 2
  | .Number => 3
  | .Difficulty => 4
  | .GasLimit => 5
  | .BaseFee => 6
  | .BlockHash => 7
  | .ChainId => 8
  | .WithdrawalRoot => 9

/-- The history-hash rows of the block-context table: one row per
historical hash; the row for index `idx` carries the block number
`number - len_history + idx` (a panicking 256-bit subtraction followed by
a fallible narrowing into the field) and the hash split into its low/high
halves. -/
def history_rows (number len_history : Nat) : Nat → List Nat → Option (List (List Nat))
  | _, [] => some []
  | idx, hash :: rest => do
    let base ← word_sub number len_history
    let tag_value ← to_scalar (base + idx)
    let tail ← history_rows number len_history (idx + 1) rest
    pure ([BlockContextFieldTag.BlockHash.toNat, tag_value, word_lo hash, word_hi hash] :: tail)

/-- Assignments for the block table (`BlockContext::table_assignments`):
eight fixed rows (coinbase, timestamp, number, difficulty, gas limit,
base fee, chain id, withdrawal root) followed by one row per history
hash.  Wide (256-bit) values are split into low/high halves; `timestamp`
and `number` are narrowed directly into the field with a panicking
`unwrap` (`none` models the panic); each row is `[tag, block_number, lo, hi]`. -/
def BlockContext.table_assignments (c : BlockContext) : Option (List (List Nat)) := do
  let ts ← to_scalar c.timestamp
  let num ← to_scalar c.number
  let fixed : List (List Nat) :=
    [[BlockContextFieldTag.Coinbase.toNat, 0, word_lo c.coinbase, word_hi c.coinbase],
     [BlockContextFieldTag.Timestamp.toNat, 0, ts, 0],
     [BlockContextFieldTag.Number.toNat, 0, num, 0],
     [BlockContextFieldTag.Difficulty.toNat, 0, word_lo c.difficulty, word_hi c.difficulty],
     [BlockContextFieldTag.GasLimit.toNat, 0, c.gas_limit, 0],
     [BlockContextFieldTag.BaseFee.toNat, 0, word_lo c.base_fee, word_hi c.base_fee],
     [BlockContextFieldTag.ChainId.toNat, 0, word_lo c.chain_id, word_hi c.chain_id],
     [BlockContextFieldTag.WithdrawalRoot.toNat, 0,
       word_lo c.withdrawals_root, word_hi c.withdrawals_root]]
  let history ← history_rows c.number c.history_hashes.length 0 c.history_hashes
  pure (fixed ++ history)

/-- The per-chunk context consumed by assembly: `chunk.ctx.rwc.0`, the
read/write counter at the chunk's end. -/
structure ChunkCtx where
  rwc : Nat
deriving DecidableEq, Repr

/-- The header and event lists of the bus-mapping block
(`circuit_input_builder::Block`) consumed by `block_convert`. -/
structure CircuitInputBuilderBlock where
  container : List Rw
  txs : List Transaction
  copy_events : List CopyEvent
  exp_events : List ExpEvent
  sha3_inputs : List (List Nat)
  prev_state_root : Nat
  precompile_events : PrecompileEvents
  eth_block : EthBlock
  end_block : ExecStep
  coinbase : Nat
  gas_limit : Nat
  number : Nat
  timestamp : Nat
  difficulty : Nat
  base_fee : Nat
  history_hashes : List Nat
  chain_id : Nat
  withdrawals_root : Nat
deriving DecidableEq, Repr

/-- The `impl From<&circuit_input_builder::Block> for BlockContext`: copy the
header fields. -/
def BlockContext.from_block (b : CircuitInputBuilderBlock) : BlockContext :=
  { coinbase := b.coinbase
    gas_limit := b.gas_limit
    number := b.number
    timestamp := b.timestamp
    difficulty := b.difficulty
    base_fee := b.base_fee
    history_hashes := b.history_hashes
    chain_id := b.chain_id
    withdrawals_root := b.withdrawals_root }

/-- The finalized trace builder (`CircuitInputBuilder<FixedCParams>`).
`keccak_inputs_res` — modelled from the spec: the recorded outcome of the
external hash-input derivation
(`circuit_input_builder::keccak_inputs(block, code_db)`, not in src),
whose failure `block_convert` propagates unchanged. -/
structure CircuitInputBuilder where
  block : CircuitInputBuilderBlock
  code_db : CodeDB
  chunks : List ChunkCtx
  circuits_params : FixedCParams
  feature_config : FeatureConfig
  keccak_inputs_res : Except AssemblyError (List (List Nat))
deriving DecidableEq, Repr

/-- One increment of the padding statistics map (`*map.entry(k).or_insert(0) += 1`). -/
def rw_padding_bump (map : Nat → Int) (k : Nat) : Nat → Int :=
  fun i => if i = k then map k + 1 else map i

/-- The padding row indices contributed by one chunk: the half-open
interval `[rwc, max_rws)`. -/
def chunk_padding_range (rwc max_rws : Nat) : List Nat :=
  List.range' rwc (max_rws - rwc)

/-- The padding-statistics fold of `block_convert`: for every chunk,
assert `rwc.saturating_sub(1) <= max_rws` (a failed assertion is a
panic carrying the format arguments `max_rws` and `rwc - 1`), then count
every row index of `[rwc, max_rws)` as padding for that chunk. -/
def rw_padding_fold (max_rws : Nat) : List ChunkCtx → (Nat → Int) →
    Except AssemblyFailure (Nat → Int)
  | [], map => .ok map
  | chunk :: rest, map =>
    if chunk.rwc - 1 ≤ max_rws then
      rw_padding_fold max_rws rest
        ((chunk_padding_range chunk.rwc max_rws).foldl rw_padding_bump map)
    else
      .error (.Panic max_rws (chunk.rwc - 1))

/-- Inject the `Result` channel of an external call into assembly
outcomes (the `?` operator of `block_convert`). -/
def liftErr {α : Type} : Except AssemblyError α → Except AssemblyFailure α
  | .ok a => .ok a
  | .error e => .error (.Err e)

/-- The snapshot populated by `block_convert` just before the public-input
entry is appended: the `Block { .. }` literal of the source, with the
fixed randomness seed `0xcafe`, the log and its address-sorted view, all
event lists, the derived block context, and the trace-derived keccak
inputs. -/
def pre_pi_block (builder : CircuitInputBuilder) (keccak_inputs : List (List Nat))
    (rw_padding_meta : Nat → Int) : Block :=
  let rws := RwMap.from_container builder.block.container
  { randomness := 0xcafe
    context := BlockContext.from_block builder.block
    rws := rws
    by_address_rws := rws.table_assignments false
    txs := builder.block.txs
    bytecodes := builder.code_db
    copy_events := builder.block.copy_events
    exp_events := builder.block.exp_events
    sha3_inputs := builder.block.sha3_inputs
    circuits_params := builder.circuits_params
    feature_config := builder.feature_config
    exp_circuit_pad_to := 0
    prev_state_root := builder.block.prev_state_root
    keccak_inputs := keccak_inputs
    precompile_events := builder.block.precompile_events
    eth_block := builder.block.eth_block
    end_block := builder.block.end_block
    rw_padding_meta := rw_padding_meta }

/-- Modelled from the spec: the public-input byte serialization
(`public_data_convert` + `PublicData::get_pi_bytes` in `instance.rs`, not
in src), abstracted as a function of the populated snapshot and the
max-transactions, max-withdrawals and max-call-data parameters. -/
def PiFn : Type := Block → Nat → Nat → Nat → List Nat

/-- Convert a bus-mapping block into a witness block (`block_convert`):
build the log and its address-sorted view, run the mandatory consistency
check — `rws.check_value();` discards any returned value, so only a
panic inside the check (its modelled abort) stops assembly here, never a
`Result` error — compute the padding statistics (asserting chunk
capacity), derive the keccak inputs (propagating their failure with `?`),
populate the snapshot, and finally append the public-input byte
serialization as one more keccak input. -/
def block_convert (pi : PiFn) (builder : CircuitInputBuilder) :
    Except AssemblyFailure Block := do
  let rws := RwMap.from_container builder.block.container
  let _ ← rws.check_value
  let rw_padding_meta ← rw_padding_fold builder.circuits_params.max_rws builder.chunks
    (fun _ => 0)
  let keccak_inputs ← liftErr builder.keccak_inputs_res
  let block := pre_pi_block builder keccak_inputs rw_padding_meta
  let rpi_bytes := pi block block.circuits_params.max_txs
    block.circuits_params.max_withdrawals block.circuits_params.max_calldata
  pure { block with keccak_inputs := block.keccak_inputs ++ [rpi_bytes] }

lemma itertools_max_getD_cons (a : Nat) (l : List Nat) :
    (itertools_max (a :: l)).getD 0 = Nat.max a ((itertools_max l).getD 0) := by
  cases h : itertools_max l <;> simp [itertools_max, h]

lemma itertools_max_getD_mono {l1 l2 : List Nat} (h : List.Forall₂ (· ≤ ·) l1 l2) :
    (itertools_max l1).getD 0 ≤ (itertools_max l2).getD 0 := by
  induction h with
  | nil => simp [itertools_max]
  | cons hab _ ih =>
    rw [itertools_max_getD_cons, itertools_max_getD_cons]
    exact max_le_max hab ih

lemma le_itertools_max_getD {x : Nat} : ∀ {l : List Nat}, x ∈ l →
    x ≤ (itertools_max l).getD 0 := by
  intro l hx
  induction l with
  | nil => cases hx
  | cons a l ih =>
    rw [itertools_max_getD_cons]
    rcases List.mem_cons.mp hx with h | h
    · exact h ▸ le_max_left _ _
    · exact le_trans (ih h) (le_max_right _ _)

/-- The maximum of the sub-table row requirements exactly as the claim
enumerates them: execution-step rows, the configured `max_rws`, the sum
of fixed-table row counts, bytecode-table rows, copy-table rows,
keccak-input count, transaction-table rows, exponentiation-table rows,
and the fixed minimum 65536.  Stated from the claim's words, to be
compared with the source's `itertools::max` list. -/
def claimed_rows_max (b : Block) (ext : ExternalRows) : Nat :=
  Nat.max ext.num_rows_required_for_execution_steps
    (Nat.max b.circuits_params.max_rws
      (Nat.max (num_rows_required_for_fixed_table ext)
        (Nat.max ext.num_rows_required_for_bytecode_table
          (Nat.max (num_rows_required_for_copy_table b.copy_events)
            (Nat.max (num_rows_required_for_keccak_table b.keccak_inputs)
              (Nat.max (num_rows_required_for_tx_table b.txs)
                (Nat.max (num_rows_required_for_exp_table b.exp_events) 65536)))))))

lemma rows_needed_eq_claimed (b : Block) (ext : ExternalRows) :
    (itertools_max (sub_table_rows b ext)).getD 0 = claimed_rows_max b ext := by
  show (itertools_max (sub_table_rows b ext)).getD 0 = _
  simp only [sub_table_rows, itertools_max_getD_cons]
  have h0 : (itertools_max ([] : List Nat)).getD 0 = 0 := rfl
  have h16 : (1 <<< 16 : Nat).max 0 = 65536 := by decide
  rw [h0, h16]
  rfl

/-- C1: for every witness snapshot and external row requirements,
`get_test_degree` returns the smallest `k` such that `2 ^ k` is at least
the unusable-row count plus the maximum over all sub-table row
requirements and the fixed minimum 65536. -/
theorem c1_degree_least_pow2 (b : Block) (ext : ExternalRows) :
    ext.unusable_rows + claimed_rows_max b ext ≤ 2 ^ b.get_test_degree ext ∧
    ∀ k, ext.unusable_rows + claimed_rows_max b ext ≤ 2 ^ k →
      b.get_test_degree ext ≤ k := by
  have hdeg : b.get_test_degree ext =
      Nat.clog 2 (ext.unusable_rows + claimed_rows_max b ext) := by
    show Nat.clog 2 (ext.unusable_rows + (itertools_max (sub_table_rows b ext)).getD 0) = _
    rw [rows_needed_eq_claimed]
  constructor
  · rw [hdeg]
    exact Nat.le_pow_clog (by norm_num) _
  · intro k hk
    rw [hdeg]
    exact (Nat.le_pow_iff_clog_le (by norm_num)).mp hk

/-- A minimal concrete snapshot used to instantiate the theorems. -/
def empty_block : Block :=
  { randomness := 0
    txs := []
    end_block := ⟨0⟩
    rws := ⟨[]⟩
    by_address_rws := []
    bytecodes := ⟨[]⟩
    context :=
      { coinbase := 0, gas_limit := 0, number := 0, timestamp := 0, difficulty := 0
        base_fee := 0, history_hashes := [], chain_id := 0, withdrawals_root := 0 }
    copy_events := []
    exp_events := []
    exp_circuit_pad_to := 0
    circuits_params := { max_rws := 0, max_txs := 0, max_withdrawals := 0, max_calldata := 0 }
    feature_config := ⟨0⟩
    sha3_inputs := []
    prev_state_root := 0
    keccak_inputs := []
    precompile_events := ⟨[]⟩
    eth_block := ⟨none, none⟩
    rw_padding_meta := fun _ => 0 }

/-- Concrete external row requirements, all zero. -/
def ext0 : ExternalRows :=
  { num_rows_required_for_execution_steps := 0
    fixed_table_tag_counts := []
    num_rows_required_for_bytecode_table := 0
    unusable_rows := 0 }

/-- Witness for C1 at a concrete empty snapshot: the degree is 16 and
`2 ^ 16` covers the 65536-row floor. -/
theorem c1_degree_least_pow2_witness :
    ext0.unusable_rows + claimed_rows_max empty_block ext0 ≤
      2 ^ empty_block.get_test_degree ext0 ∧
    empty_block.get_test_degree ext0 ≤ 16 :=
  ⟨(c1_degree_least_pow2 empty_block ext0).1,
   (c1_degree_least_pow2 empty_block ext0).2 16 (by decide)⟩

/-- C5: the per-table row requirements are exact sums of per-event
contributions: a copy event of `N` bytes contributes exactly `2 N` rows,
a transaction with `M` call-data bytes contributes exactly `9 + M` rows,
and an exponentiation event with `S` steps contributes exactly
`S * OFFSET_INCREMENT` rows. -/
theorem c5_table_row_counts :
    (∀ ce : List CopyEvent, num_rows_required_for_copy_table ce =
      2 * (ce.map (fun c => c.bytes.length)).sum) ∧
    (∀ txs : List Transaction, num_rows_required_for_tx_table txs =
      9 * txs.length + (txs.map (fun tx => tx.call_data.length)).sum) ∧
    (∀ ee : List ExpEvent, num_rows_required_for_exp_table ee =
      OFFSET_INCREMENT * (ee.map (fun e => e.steps.length)).sum) ∧
    (∀ (c : CopyEvent) (ce : List CopyEvent),
      num_rows_required_for_copy_table (c :: ce) =
        2 * c.bytes.length + num_rows_required_for_copy_table ce) ∧
    (∀ (t : Transaction) (txs : List Transaction),
      num_rows_required_for_tx_table (t :: txs) =
        (9 + t.call_data.length) + num_rows_required_for_tx_table txs) ∧
    (∀ (e : ExpEvent) (ee : List ExpEvent),
      num_rows_required_for_exp_table (e :: ee) =
        e.steps.length * OFFSET_INCREMENT + num_rows_required_for_exp_table ee) := by
  refine ⟨?_, ?_, ?_, ?_, ?_, ?_⟩
  · intro ce
    induction ce with
    | nil => rfl
    | cons c rest ih =>
      simp only [num_rows_required_for_copy_table, List.map_cons, List.sum_cons] at ih ⊢
      omega
  · intro txs
    induction txs with
    | nil => rfl
    | cons t rest ih =>
      simp only [num_rows_required_for_tx_table, List.map_cons, List.sum_cons,
        List.length_cons] at ih ⊢
      omega
  · intro ee
    induction ee with
    | nil => rfl
    | cons e rest ih =>
      simp only [num_rows_required_for_exp_table, OFFSET_INCREMENT, List.map_cons,
        List.sum_cons] at ih ⊢
      omega
  · intro c ce
    simp only [num_rows_required_for_copy_table, List.map_cons, List.sum_cons]
    omega
  · intro t txs
    simp only [num_rows_required_for_tx_table, List.map_cons, List.sum_cons]
  · intro e ee
    simp only [num_rows_required_for_exp_table, List.map_cons, List.sum_cons]

/-- C6: the computed circuit degree is monotone in the sub-table row
requirements (pointwise, unusable rows held fixed) and bounded below by
the base-2 ceiling logarithm of `65536 + unusable_rows`. -/
theorem c6_degree_monotone_bounded :
    (∀ (b1 b2 : Block) (e1 e2 : ExternalRows),
      e1.unusable_rows = e2.unusable_rows →
      List.Forall₂ (· ≤ ·) (sub_table_rows b1 e1) (sub_table_rows b2 e2) →
      b1.get_test_degree e1 ≤ b2.get_test_degree e2) ∧
    (∀ (b : Block) (e : ExternalRows),
      log2_ceil (65536 + e.unusable_rows) ≤ b.get_test_degree e) := by
  constructor
  · intro b1 b2 e1 e2 hu hf
    have hX : (itertools_max (sub_table_rows b1 e1)).getD 0 ≤
        (itertools_max (sub_table_rows b2 e2)).getD 0 := itertools_max_getD_mono hf
    show Nat.clog 2 (e1.unusable_rows + (itertools_max (sub_table_rows b1 e1)).getD 0) ≤
      Nat.clog 2 (e2.unusable_rows + (itertools_max (sub_table_rows b2 e2)).getD 0)
    exact Nat.clog_mono_right 2 (by omega)
  · intro b e
    have hmem : (1 <<< 16) ∈ sub_table_rows b e := by simp [sub_table_rows]
    have h := le_itertools_max_getD hmem
    have h16 : (1 <<< 16 : Nat) = 65536 := by decide
    show Nat.clog 2 (65536 + e.unusable_rows) ≤
      Nat.clog 2 (e.unusable_rows + (itertools_max (sub_table_rows b e)).getD 0)
    exact Nat.clog_mono_right 2 (by omega)

/-- Witness for C6 at a concrete snapshot: reflexive monotonicity and the
lower bound hold at the empty snapshot. -/
theorem c6_degree_monotone_bounded_witness :
    empty_block.get_test_degree ext0 ≤ empty_block.get_test_degree ext0 ∧
    log2_ceil (65536 + ext0.unusable_rows) ≤ empty_block.get_test_degree ext0 :=
  ⟨c6_degree_monotone_bounded.1 empty_block empty_block ext0 ext0 rfl
      (List.forall₂_same.mpr (fun x _ => le_refl x)),
   c6_degree_monotone_bounded.2 empty_block ext0⟩

lemma except_bind_ok {ε α β : Type} (a : α) (f : α → Except ε β) :
    (Except.ok a : Except ε α) >>= f = f a := rfl

lemma except_bind_error {ε α β : Type} (e : ε) (f : α → Except ε β) :
    (Except.error e : Except ε α) >>= f = .error e := rfl

lemma except_pure_eq {ε α : Type} (a : α) : (pure a : Except ε α) = .ok a := rfl

lemma check_value_go_cases (rows : List Rw) : ∀ (last : Nat → Option Nat),
    check_value_go last rows = .ok () ∨
    check_value_go last rows = .error .PanicInconsistent := by
  induction rows with
  | nil => intro last; left; rfl
  | cons r rest ih =>
    intro last
    simp only [check_value_go]
    split
    · exact ih _
    · split
      · split
        · exact ih _
        · right; rfl
      · exact ih _

lemma foldl_bump_range' : ∀ (n a : Nat) (map : Nat → Int) (i : Nat),
    ((List.range' a n).foldl rw_padding_bump map) i =
      map i + (if a ≤ i ∧ i < a + n then 1 else 0) := by
  intro n
  induction n with
  | zero =>
    intro a map i
    simp only [List.range', List.foldl_nil]
    rw [if_neg (by omega)]
    omega
  | succ n ih =>
    intro a map i
    rw [List.range'_succ]
    simp only [List.foldl_cons]
    rw [ih (a + 1) (rw_padding_bump map a) i]
    simp only [rw_padding_bump]
    by_cases hia : i = a
    · subst hia
      rw [if_pos rfl, if_neg (by omega : ¬(i + 1 ≤ i ∧ i < i + 1 + n)),
        if_pos (by omega : i ≤ i ∧ i < i + (n + 1))]
      omega
    · rw [if_neg hia]
      have hiff : (a + 1 ≤ i ∧ i < a + 1 + n) ↔ (a ≤ i ∧ i < a + (n + 1)) := by omega
      by_cases hc : a ≤ i ∧ i < a + (n + 1)
      · rw [if_pos hc, if_pos (hiff.mpr hc)]
      · rw [if_neg hc, if_neg (fun hx => hc (hiff.mp hx))]

lemma rw_padding_fold_ok (max_rws : Nat) : ∀ (chunks : List ChunkCtx) (map : Nat → Int),
    (∀ c ∈ chunks, c.rwc - 1 ≤ max_rws) →
    ∃ m, rw_padding_fold max_rws chunks map = .ok m ∧
      ∀ idx, m idx = map idx +
        (chunks.countP (fun c => decide (c.rwc ≤ idx ∧ idx < max_rws)) : Int) := by
  intro chunks
  induction chunks with
  | nil =>
    intro map _
    exact ⟨map, rfl, fun idx => by simp⟩
  | cons c rest ih =>
    intro map hcap
    have hc : c.rwc - 1 ≤ max_rws := hcap c (List.mem_cons_self c rest)
    obtain ⟨m, hm, hval⟩ := ih ((chunk_padding_range c.rwc max_rws).foldl rw_padding_bump map)
      (fun c' h' => hcap c' (List.mem_cons_of_mem _ h'))
    refine ⟨m, ?_, ?_⟩
    · simp only [rw_padding_fold, if_pos hc]
      exact hm
    · intro idx
      rw [hval idx]
      have hr := foldl_bump_range' (max_rws - c.rwc) c.rwc map idx
      rw [show chunk_padding_range c.rwc max_rws = List.range' c.rwc (max_rws - c.rwc) from rfl,
        hr, List.countP_cons]
      by_cases h2 : c.rwc ≤ idx ∧ idx < max_rws
      · rw [if_pos (by omega : c.rwc ≤ idx ∧ idx < c.rwc + (max_rws - c.rwc))]
        have : (decide (c.rwc ≤ idx ∧ idx < max_rws)) = true := by
          simp only [decide_eq_true_eq]; exact h2
        rw [this]
        simp only [if_pos rfl]
        push_cast
        omega
      · rw [if_neg (by omega : ¬(c.rwc ≤ idx ∧ idx < c.rwc + (max_rws - c.rwc)))]
        have : (decide (c.rwc ≤ idx ∧ idx < max_rws)) = false := by
          simp only [decide_eq_false_iff_not]; exact h2
        rw [this]
        simp only [Bool.false_eq_true, if_false]
        push_cast
        omega

/-- C2: for every chunk configuration within capacity, the padding
statistics map assigns to each absolute row index the number of chunks
for which that index is padding, i.e. the number of chunks whose interval
`[rwc, max_rws)` contains the index; indices outside every interval carry
count 0 (no entry). -/
theorem c2_padding_counts (max_rws : Nat) (chunks : List ChunkCtx)
    (hcap : ∀ c ∈ chunks, c.rwc - 1 ≤ max_rws) :
    ∃ m, rw_padding_fold max_rws chunks (fun _ => 0) = .ok m ∧
      ∀ idx, m idx =
        (chunks.countP (fun c => decide (c.rwc ≤ idx ∧ idx < max_rws)) : Int) := by
  obtain ⟨m, hm, hv⟩ := rw_padding_fold_ok max_rws chunks (fun _ => 0) hcap
  exact ⟨m, hm, fun idx => by simpa using hv idx⟩

/-- Witness for C2: the claim's scenario — a single chunk with boundary
counter 100 and `max_rws = 150` yields count 1 exactly on indices
100..149. -/
theorem c2_padding_counts_witness :
    ∃ m, rw_padding_fold 150 [⟨100⟩] (fun _ => 0) = .ok m ∧
      ∀ idx, m idx =
        (([⟨100⟩] : List ChunkCtx).countP
          (fun c => decide (c.rwc ≤ idx ∧ idx < 150)) : Int) :=
  c2_padding_counts 150 [⟨100⟩] (by decide)

lemma rw_padding_fold_panic (max_rws : Nat) : ∀ (chunks : List ChunkCtx) (map : Nat → Int),
    (∃ c ∈ chunks, max_rws < c.rwc - 1) →
    ∃ m n, rw_padding_fold max_rws chunks map = .error (.Panic m n) := by
  intro chunks
  induction chunks with
  | nil =>
    rintro map ⟨c, hc, _⟩
    cases hc
  | cons c rest ih =>
    rintro map ⟨c', hc', hover⟩
    by_cases hcap : c.rwc - 1 ≤ max_rws
    · have hmem : c' ∈ rest := by
        rcases List.mem_cons.mp hc' with h | h
        · subst h; exact absurd hover (by omega)
        · exact h
      obtain ⟨m, n, hmn⟩ := ih _ ⟨c', hmem, hover⟩
      refine ⟨m, n, ?_⟩
      simp only [rw_padding_fold, if_pos hcap]
      exact hmn
    · exact ⟨max_rws, c.rwc - 1, by simp only [rw_padding_fold, if_neg hcap]⟩

/-- A concrete public-input serialization function used to instantiate
the assembly theorems. -/
def pi_test : PiFn := fun _ _ _ _ => [7]

/-- A concrete, within-capacity, consistent builder used to instantiate
the assembly theorems. -/
def builder_base : CircuitInputBuilder :=
  { block :=
      { container := []
        txs := []
        copy_events := []
        exp_events := []
        sha3_inputs := []
        prev_state_root := 0
        precompile_events := ⟨[]⟩
        eth_block := ⟨none, none⟩
        end_block := ⟨0⟩
        coinbase := 0
        gas_limit := 0
        number := 0
        timestamp := 0
        difficulty := 0
        base_fee := 0
        history_hashes := []
        chain_id := 0
        withdrawals_root := 0 }
    code_db := ⟨[]⟩
    chunks := [⟨100⟩]
    circuits_params := { max_rws := 150, max_txs := 1, max_withdrawals := 0, max_calldata := 0 }
    feature_config := ⟨0⟩
    keccak_inputs_res := .ok [] }

/-- C3 counterexample: a single chunk with end counter 152 against
`max_rws = 150` (so its event count exceeds the maximum under either
reading of "count") makes assembly abort through the failed `assert!`
— a panic — and not through a `CapacityExceededError` `Result` error as
the claim states. -/
theorem c3_capacity_counterexample :
    block_convert pi_test { builder_base with chunks := [⟨152⟩] } =
      .error (.Panic 150 151) ∧
    ∀ e : AssemblyError, AssemblyFailure.Panic 150 151 ≠ .Err e :=
  ⟨rfl, fun _ h => AssemblyFailure.noConfusion h⟩

/-- C3 (amended): when some chunk's end counter minus one exceeds
`max_rws` (the condition the source asserts) and the consistency check
passes, assembly aborts with a panic — an assertion failure, not a
`CapacityExceededError` `Result` error; when every chunk satisfies
`rwc - 1 ≤ max_rws`, no capacity panic occurs. -/
theorem c3_capacity_assert (pi : PiFn) (b : CircuitInputBuilder) :
    ((RwMap.from_container b.block.container).check_value = .ok () →
      (∃ c ∈ b.chunks, b.circuits_params.max_rws < c.rwc - 1) →
      ∃ m n, block_convert pi b = .error (.Panic m n)) ∧
    ((∀ c ∈ b.chunks, c.rwc - 1 ≤ b.circuits_params.max_rws) →
      ∀ m n, block_convert pi b ≠ .error (.Panic m n)) := by
  constructor
  · intro hchk hover
    obtain ⟨m, n, hmn⟩ :=
      rw_padding_fold_panic b.circuits_params.max_rws b.chunks (fun _ => 0) hover
    refine ⟨m, n, ?_⟩
    simp only [block_convert]
    rw [hchk]
    simp only [except_bind_ok]
    rw [hmn]
    rfl
  · intro hcap m n hcontra
    obtain ⟨mm, hmm, _⟩ :=
      rw_padding_fold_ok b.circuits_params.max_rws b.chunks (fun _ => 0) hcap
    rcases check_value_go_cases b.block.container (fun _ => none) with hok | herr
    · have hok' : (RwMap.from_container b.block.container).check_value = .ok () := hok
      cases hk : b.keccak_inputs_res with
      | ok ki =>
        simp only [block_convert] at hcontra
        rw [hok'] at hcontra
        simp only [except_bind_ok] at hcontra
        rw [hmm] at hcontra
        simp only [except_bind_ok] at hcontra
        rw [hk] at hcontra
        simp only [liftErr, except_bind_ok, except_pure_eq] at hcontra
        cases hcontra
      | error e =>
        simp only [block_convert] at hcontra
        rw [hok'] at hcontra
        simp only [except_bind_ok] at hcontra
        rw [hmm] at hcontra
        simp only [except_bind_ok] at hcontra
        rw [hk] at hcontra
        simp only [liftErr, except_bind_error] at hcontra
        cases hcontra
    · have herr' : (RwMap.from_container b.block.container).check_value =
          .error .PanicInconsistent := herr
      simp only [block_convert] at hcontra
      rw [herr'] at hcontra
      simp only [except_bind_error] at hcontra
      cases hcontra

/-- Witness for C3 (amended): a chunk with end counter 153 panics; the
within-capacity base builder never produces a capacity panic. -/
theorem c3_capacity_assert_witness :
    (∃ m n, block_convert pi_test { builder_base with chunks := [⟨153⟩] } =
      .error (.Panic m n)) ∧
    (∀ m n, block_convert pi_test builder_base ≠ .error (.Panic m n)) :=
  ⟨(c3_capacity_assert pi_test { builder_base with chunks := [⟨153⟩] }).1 rfl (by decide),
   (c3_capacity_assert pi_test builder_base).2 (by decide)⟩

/-- A builder whose log has two sequential reads of the same target with
different values (and an over-capacity chunk, to exhibit that the
consistency abort takes precedence). -/
def builder_inconsistent : CircuitInputBuilder :=
  { builder_base with
    block := { builder_base.block with
      container := [⟨1, false, 7, 5⟩, ⟨2, false, 7, 6⟩] }
    chunks := [⟨200⟩] }

/-- C4 counterexample: on a log with two sequential reads of the same
target returning different values, assembly aborts through a panic
inside the consistency check — an outcome distinct from every `Result`
error, and in particular not a returned `InconsistentValueError` as the
claim states.  The source's `rws.check_value();` discards any returned
value, so `block_convert` cannot surface `InconsistentValueError`
through its `Result` channel on any input. -/
theorem c4_counterexample :
    block_convert pi_test builder_inconsistent = .error .PanicInconsistent ∧
    ∀ e : AssemblyError, AssemblyFailure.PanicInconsistent ≠ .Err e :=
  ⟨rfl, fun _ h => AssemblyFailure.noConfusion h⟩

/-- C4 (amended): whenever the chronological log violates the
read-after-write invariant (the mandatory consistency check does not
pass), block assembly aborts before the log is used — via a panic raised
inside the check, whose returned value the call site discards — and not
by returning `InconsistentValueError` as a `Result` error; the abort
pre-empts the padding statistics, the keccak inputs and the snapshot,
whatever those would do. -/
theorem c4_check_panic (pi : PiFn) (b : CircuitInputBuilder)
    (h : (RwMap.from_container b.block.container).check_value ≠ .ok ()) :
    block_convert pi b = .error .PanicInconsistent ∧
    ∀ e : AssemblyError, block_convert pi b ≠ .error (.Err e) := by
  rcases check_value_go_cases b.block.container (fun _ => none) with hok | herr
  · exact absurd hok h
  · have hmain : block_convert pi b = .error .PanicInconsistent := by
      simp only [block_convert]
      rw [show (RwMap.from_container b.block.container).check_value =
          .error .PanicInconsistent from herr]
      rfl
    refine ⟨hmain, ?_⟩
    intro e hc
    rw [hmain] at hc
    cases hc

/-- Witness for C4 (amended): the claim's scenario — two sequential
reads of the same target returning different values abort assembly with
the consistency-check panic, not with a `Result` error. -/
theorem c4_check_panic_witness :
    block_convert pi_test builder_inconsistent = .error .PanicInconsistent ∧
    ∀ e : AssemblyError,
      block_convert pi_test builder_inconsistent ≠ .error (.Err e) :=
  c4_check_panic pi_test builder_inconsistent (by decide)

lemma option_bind_some {α β : Type} (a : α) (f : α → Option β) :
    (some a >>= f) = f a := rfl

lemma option_bind_none {α β : Type} (f : α → Option β) :
    ((none : Option α) >>= f) = none := rfl

lemma option_pure_eq {α : Type} (a : α) : (pure a : Option α) = some a := rfl

/-- C7: on every successful assembly, the returned snapshot is exactly
the populated snapshot with the public-input serialization (computed from
that populated snapshot and the max-transactions / max-withdrawals /
max-call-data parameters) appended as one additional keccak input; the
populated snapshot's keccak inputs are the trace-derived ones, and no
other field differs between the two. -/
theorem c7_pi_append_frame (pi : PiFn) (b : CircuitInputBuilder)
    (ki : List (List Nat)) (meta : Nat → Int)
    (hchk : (RwMap.from_container b.block.container).check_value = .ok ())
    (hpad : rw_padding_fold b.circuits_params.max_rws b.chunks (fun _ => 0) = .ok meta)
    (hk : b.keccak_inputs_res = .ok ki) :
    block_convert pi b = .ok
      { pre_pi_block b ki meta with
        keccak_inputs := ki ++
          [pi (pre_pi_block b ki meta) b.circuits_params.max_txs
            b.circuits_params.max_withdrawals b.circuits_params.max_calldata] } ∧
    (pre_pi_block b ki meta).keccak_inputs = ki ∧
    ∀ blk, block_convert pi b = .ok blk →
      { blk with keccak_inputs := ki } = pre_pi_block b ki meta := by
  have hmain : block_convert pi b = .ok
      { pre_pi_block b ki meta with
        keccak_inputs := ki ++
          [pi (pre_pi_block b ki meta) b.circuits_params.max_txs
            b.circuits_params.max_withdrawals b.circuits_params.max_calldata] } := by
    simp only [block_convert]
    rw [hchk]
    simp only [except_bind_ok]
    rw [hpad]
    simp only [except_bind_ok]
    rw [hk]
    simp only [liftErr, except_bind_ok, except_pure_eq]
    rfl
  refine ⟨hmain, rfl, ?_⟩
  intro blk hblk
  rw [hmain] at hblk
  have h := Except.ok.inj hblk
  rw [← h]
  rfl

/-- A builder on which assembly succeeds, with two trace-derived keccak
inputs. -/
def builder_good : CircuitInputBuilder :=
  { builder_base with chunks := [], keccak_inputs_res := .ok [[1], [2]] }

/-- Witness for C7 at a concrete builder: its two trace-derived keccak
inputs come back followed by exactly the public-input entry. -/
theorem c7_pi_append_frame_witness :
    block_convert pi_test builder_good = .ok
      { pre_pi_block builder_good [[1], [2]] (fun _ => 0) with
        keccak_inputs := [[1], [2]] ++
          [pi_test (pre_pi_block builder_good [[1], [2]] (fun _ => 0))
            builder_good.circuits_params.max_txs
            builder_good.circuits_params.max_withdrawals
            builder_good.circuits_params.max_calldata] } ∧
    (pre_pi_block builder_good [[1], [2]] (fun _ => 0)).keccak_inputs = [[1], [2]] :=
  ⟨(c7_pi_append_frame pi_test builder_good [[1], [2]] (fun _ => 0) rfl rfl rfl).1,
   (c7_pi_append_frame pi_test builder_good [[1], [2]] (fun _ => 0) rfl rfl rfl).2.1⟩

lemma history_rows_eq (number len_history : Nat) :
    ∀ (l : List Nat) (idx : Nat),
    len_history ≤ number →
    (∀ j, j < l.length → number - len_history + (idx + j) < FIELD_MODULUS) →
    history_rows number len_history idx l =
      some (((List.range' idx l.length).zip l).map
        (fun p => [BlockContextFieldTag.BlockHash.toNat, number - len_history + p.1,
          word_lo p.2, word_hi p.2])) := by
  intro l
  induction l with
  | nil =>
    intro idx _ _
    rfl
  | cons h rest ih =>
    intro idx hle hfit
    have hsub : word_sub number len_history = some (number - len_history) := by
      simp [word_sub, hle]
    have hfit0 : number - len_history + idx < FIELD_MODULUS := by
      have := hfit 0 (by simp)
      omega
    have hts : to_scalar (number - len_history + idx) = some (number - len_history + idx) := by
      simp [to_scalar, hfit0]
    simp only [history_rows]
    rw [hsub]
    simp only [option_bind_some]
    rw [hts]
    simp only [option_bind_some]
    rw [ih (idx + 1) hle (fun j hj => by
      have := hfit (j + 1) (by simpa using Nat.succ_lt_succ hj)
      omega)]
    simp only [option_bind_some, option_pure_eq, List.length_cons, List.range'_succ,
      List.zip_cons_cons, List.map_cons]

/-- C8 (amended): for every block context whose directly-embedded values
fit the field (`timestamp`, `number` below the modulus) and whose history
is no longer than the block number, `table_assignments` returns exactly 8
fixed rows — coinbase, timestamp, number, difficulty, gas limit, base
fee, chain id, withdrawal root — followed by one row per history hash,
the row at position `index` carrying block number
`number - history_length + index`, with all wide values split into
low/high halves. -/
theorem c8_block_table_shape (c : BlockContext)
    (hts : c.timestamp < FIELD_MODULUS)
    (hnum : c.number < FIELD_MODULUS)
    (hlen : c.history_hashes.length ≤ c.number) :
    c.table_assignments = some
      ([[BlockContextFieldTag.Coinbase.toNat, 0, word_lo c.coinbase, word_hi c.coinbase],
        [BlockContextFieldTag.Timestamp.toNat, 0, c.timestamp, 0],
        [BlockContextFieldTag.Number.toNat, 0, c.number, 0],
        [BlockContextFieldTag.Difficulty.toNat, 0, word_lo c.difficulty, word_hi c.difficulty],
        [BlockContextFieldTag.GasLimit.toNat, 0, c.gas_limit, 0],
        [BlockContextFieldTag.BaseFee.toNat, 0, word_lo c.base_fee, word_hi c.base_fee],
        [BlockContextFieldTag.ChainId.toNat, 0, word_lo c.chain_id, word_hi c.chain_id],
        [BlockContextFieldTag.WithdrawalRoot.toNat, 0,
          word_lo c.withdrawals_root, word_hi c.withdrawals_root]] ++
       ((List.range c.history_hashes.length).zip c.history_hashes).map
         (fun p => [BlockContextFieldTag.BlockHash.toNat,
           c.number - c.history_hashes.length + p.1, word_lo p.2, word_hi p.2])) ∧
    ∀ rows, c.table_assignments = some rows →
      rows.length = 8 + c.history_hashes.length := by
  have h1 : to_scalar c.timestamp = some c.timestamp := by simp [to_scalar, hts]
  have h2 : to_scalar c.number = some c.number := by simp [to_scalar, hnum]
  have hfit : ∀ j, j < c.history_hashes.length →
      c.number - c.history_hashes.length + (0 + j) < FIELD_MODULUS := by
    intro j hj
    omega
  have hh := history_rows_eq c.number c.history_hashes.length c.history_hashes 0 hlen hfit
  have hmain : c.table_assignments = some
      ([[BlockContextFieldTag.Coinbase.toNat, 0, word_lo c.coinbase, word_hi c.coinbase],
        [BlockContextFieldTag.Timestamp.toNat, 0, c.timestamp, 0],
        [BlockContextFieldTag.Number.toNat, 0, c.number, 0],
        [BlockContextFieldTag.Difficulty.toNat, 0, word_lo c.difficulty, word_hi c.difficulty],
        [BlockContextFieldTag.GasLimit.toNat, 0, c.gas_limit, 0],
        [BlockContextFieldTag.BaseFee.toNat, 0, word_lo c.base_fee, word_hi c.base_fee],
        [BlockContextFieldTag.ChainId.toNat, 0, word_lo c.chain_id, word_hi c.chain_id],
        [BlockContextFieldTag.WithdrawalRoot.toNat, 0,
          word_lo c.withdrawals_root, word_hi c.withdrawals_root]] ++
       ((List.range c.history_hashes.length).zip c.history_hashes).map
         (fun p => [BlockContextFieldTag.BlockHash.toNat,
           c.number - c.history_hashes.length + p.1, word_lo p.2, word_hi p.2])) := by
    simp only [BlockContext.table_assignments]
    rw [h1]
    simp only [option_bind_some]
    rw [h2]
    simp only [option_bind_some]
    rw [hh]
    simp only [option_bind_some, option_pure_eq, List.range_eq_range']
  refine ⟨hmain, ?_⟩
  intro rows hrows
  rw [hmain] at hrows
  have h := Option.some.inj hrows
  rw [← h]
  simp [List.length_zip]
  omega

/-- A block context whose timestamp does not fit the field. -/
def ctx_overflow : BlockContext :=
  { coinbase := 0, gas_limit := 0, number := 0, timestamp := FIELD_MODULUS, difficulty := 0
    base_fee := 0, history_hashes := [], chain_id := 0, withdrawals_root := 0 }

/-- C8 counterexample: at a context whose timestamp exceeds the field
modulus, `table_assignments` aborts (the `to_scalar().unwrap()` panics)
and returns no rows at all, contradicting the claim's unconditional
"returns exactly 8 fixed rows ...". -/
theorem c8_counterexample :
    BlockContext.table_assignments ctx_overflow = none ∧
    ∀ rows, BlockContext.table_assignments ctx_overflow ≠ some rows := by
  refine ⟨rfl, ?_⟩
  intro rows h
  rw [show BlockContext.table_assignments ctx_overflow = none from rfl] at h
  cases h

/-- A representative in-range block context with two history hashes. -/
def ctx_ok : BlockContext :=
  { coinbase := 3, gas_limit := 4, number := 5, timestamp := 6, difficulty := 7
    base_fee := 8, history_hashes := [11, 12], chain_id := 9, withdrawals_root := 10 }

/-- Witness for C8 (amended) at a concrete in-range context: the table is
produced and has 8 + 2 rows. -/
theorem c8_block_table_shape_witness :
    ∃ rows, BlockContext.table_assignments ctx_ok = some rows ∧
      rows.length = 8 + ctx_ok.history_hashes.length :=
  ⟨_, (c8_block_table_shape ctx_ok (by decide) (by decide) (by decide)).1,
    (c8_block_table_shape ctx_ok (by decide) (by decide) (by decide)).2 _
      (c8_block_table_shape ctx_ok (by decide) (by decide) (by decide)).1⟩

lemma collect_withdrawals_none :
    ∀ (ws1 : List EthWithdrawal) (w : EthWithdrawal) (ws2 : List EthWithdrawal),
    w.parsed = none → collect_withdrawals (ws1 ++ w :: ws2) = none := by
  intro ws1
  induction ws1 with
  | nil =>
    intro w ws2 hw
    simp [collect_withdrawals, hw]
  | cons x rest ih =>
    intro w ws2 hw
    cases hx : x.parsed with
    | none => simp [collect_withdrawals, hx]
    | some v => simp [collect_withdrawals, hx, ih w ws2 hw]

/-- C9 (amended): `get_sign_data` silently drops a transaction whose
sign-data computation fails (removing such a transaction does not change
the result), but `withdrawals` does NOT drop an unparseable withdrawal —
it panics on it (`unwrap`), returning no list at all. -/
theorem c9_filter_drop_vs_panic :
    (∀ (b : Block) (t : Transaction) (pre post : List Transaction),
      t.sign_data = none → b.txs = pre ++ t :: post →
      b.get_sign_data false =
        Block.get_sign_data { b with txs := pre ++ post } false) ∧
    (∀ (b : Block) (w : EthWithdrawal) (ws1 ws2 : List EthWithdrawal),
      w.parsed = none → b.eth_block.withdrawals = some (ws1 ++ w :: ws2) →
      b.withdrawals = none) := by
  constructor
  · intro b t pre post ht htxs
    simp only [Block.get_sign_data]
    rw [if_neg (by simp), if_neg (by simp)]
    rw [htxs]
    simp [List.filterMap_append, List.filterMap_cons, ht]
  · intro b w ws1 ws2 hw hwds
    simp only [Block.withdrawals]
    rw [hwds]
    simp only [Option.getD_some]
    exact collect_withdrawals_none ws1 w ws2 hw

/-- A snapshot with one well-formed and one unparseable withdrawal. -/
def block_bad_withdrawal : Block :=
  { empty_block with eth_block :=
      ⟨some [⟨0, 0, 0, 5, some ⟨0, 0, 0, 5⟩⟩, ⟨1, 1, 1, 6, none⟩], none⟩ }

/-- C9 counterexample: on a snapshot holding one parseable and one
unparseable withdrawal, `withdrawals` returns no list at all (it panics
on the bad entry) instead of silently dropping it and returning the
remaining well-formed entry as the claim states. -/
theorem c9_counterexample :
    Block.withdrawals block_bad_withdrawal = none ∧
    ∀ l, Block.withdrawals block_bad_withdrawal ≠ some l := by
  refine ⟨rfl, ?_⟩
  intro l h
  rw [show Block.withdrawals block_bad_withdrawal = none from rfl] at h
  cases h

/-- A snapshot with a single transaction whose sign-data computation
fails. -/
def block_drop_tx : Block :=
  { empty_block with txs := [⟨[], none⟩] }

/-- Witness for C9 (amended): dropping the failing transaction leaves
`get_sign_data` unchanged, and the bad-withdrawal snapshot yields no
withdrawal list. -/
theorem c9_filter_drop_vs_panic_witness :
    Block.get_sign_data block_drop_tx false =
      Block.get_sign_data { block_drop_tx with txs := ([] : List Transaction) } false ∧
    Block.withdrawals block_bad_withdrawal = none :=
  ⟨c9_filter_drop_vs_panic.1 block_drop_tx ⟨[], none⟩ [] [] rfl rfl,
   c9_filter_drop_vs_panic.2 block_bad_withdrawal ⟨1, 1, 1, 6, none⟩
     [⟨0, 0, 0, 5, some ⟨0, 0, 0, 5⟩⟩] [] rfl rfl⟩

/-- C10: `get_sign_data` appends exactly one dummy entry at the end iff
padding is requested and the transaction count is strictly below
`max_txs`; otherwise the result is exactly the per-transaction sign data
(successes only, in order) followed by the ecRecover events. -/
theorem c10_sign_data_padding (b : Block) (padding : Bool) :
    (padding = true → b.txs.length < b.circuits_params.max_txs →
      b.get_sign_data padding =
        b.txs.filterMap Transaction.sign_data ++
          b.precompile_events.get_ecrecover_events ++
          [Transaction.dummy_sign_data b.context.chain_id]) ∧
    (padding = false ∨ b.circuits_params.max_txs ≤ b.txs.length →
      b.get_sign_data padding =
        b.txs.filterMap Transaction.sign_data ++
          b.precompile_events.get_ecrecover_events) := by
  constructor
  · intro hp hlen
    subst hp
    simp only [Block.get_sign_data]
    rw [if_pos (by exact ⟨by trivial, hlen⟩)]
  · intro h
    simp only [Block.get_sign_data]
    rcases h with h | h
    · subst h
      rw [if_neg (by simp)]
    · rw [if_neg (fun hc => absurd hc.2 (by omega))]

/-- A snapshot with one signed transaction, one ecRecover event, room for
padding (`max_txs = 2`), and chain id 99. -/
def block_pad : Block :=
  { empty_block with
    circuits_params := { max_rws := 0, max_txs := 2, max_withdrawals := 0, max_calldata := 0 }
    precompile_events := ⟨[.data 1 2 3]⟩
    txs := [⟨[], some (.data 4 5 6)⟩]
    context := { empty_block.context with chain_id := 99 } }

/-- Witness for C10: with padding on, the dummy entry for chain id 99 is
appended at the end; with padding off, the result is exactly the
successes followed by the ecRecover events. -/
theorem c10_sign_data_padding_witness :
    Block.get_sign_data block_pad true =
      block_pad.txs.filterMap Transaction.sign_data ++
        block_pad.precompile_events.get_ecrecover_events ++
        [Transaction.dummy_sign_data block_pad.context.chain_id] ∧
    Block.get_sign_data block_pad false =
      block_pad.txs.filterMap Transaction.sign_data ++
        block_pad.precompile_events.get_ecrecover_events :=
  ⟨(c10_sign_data_padding block_pad true).1 rfl (by decide),
   (c10_sign_data_padding block_pad false).2 (Or.inl rfl)⟩
